import Mathlib

/-!
Verification development for the AI-Interview-Assistant repository.

The backend (api/index.js, backend/server.js) exposes helper functions
`extractJSON`, `extractEmail`, `extractPhone`, `extractName` and four
Express routes; the frontend (frontend/src/pages/Interviewee.js) drives the
interview session: candidate records, per-question countdown, pause/resume,
auto-submit and grading calls.  Strings are modelled as `List Char`,
JS numbers used as integers/timestamps as `Nat`/`Int`.
-/

/-- ASCII letter test, the JS regex class [A-Za-z]. -/
def isAsciiLetter (c : Char) : Bool :=
  ('a' ≤ c && c ≤ 'z') || ('A' ≤ c && c ≤ 'Z')

/-- ASCII digit test, the JS regex class \d (ASCII part). -/
def isAsciiDigit (c : Char) : Bool :=
  '0' ≤ c && c ≤ '9'

/-- Lower-case ASCII letter, the JS regex class [a-z]. -/
def isLowerAZ (c : Char) : Bool :=
  'a' ≤ c && c ≤ 'z'

/-- Whitespace as used by JS String.trim and the regex class \s
(restricted to the ASCII whitespace characters). -/
def isJsWs (c : Char) : Bool :=
  c = ' ' || c = '\t' || c = '\n' || c = '\r' || c = '\x0b' || c = '\x0c'

/-- JS String.prototype.trim: drop whitespace from both ends. -/
def jsTrim (s : List Char) : List Char :=
  ((s.dropWhile isJsWs).reverse.dropWhile isJsWs).reverse

/-- Does `pat` occur at the start of `s`? -/
def startsWithList : List Char → List Char → Bool
  | [], _ => true
  | _ :: _, [] => false
  | a :: pat, b :: s => a = b && startsWithList pat s

/-- Does `pat` occur anywhere in `s` (JS RegExp.test for a literal pattern)? -/
def containsSub (pat : List Char) : List Char → Bool
  | [] => startsWithList pat []
  | c :: rest => startsWithList pat (c :: rest) || containsSub pat rest

/-- JSON values as produced by `JSON.parse`.  Numbers are kept exactly as a
decimal mantissa together with a power-of-ten exponent (the source only ever
inspects truthiness and small integer scores, so no float rounding is
modelled). -/
inductive JVal where
  | null : JVal
  | bool : Bool → JVal
  | num : Int → Int → JVal
  | str : List Char → JVal
  | arr : List JVal → JVal
  | obj : List (List Char × JVal) → JVal

/-- JSON insignificant whitespace (exactly the four characters JSON allows). -/
def skipJsonWs (s : List Char) : List Char :=
  s.dropWhile (fun c => c = ' ' || c = '\t' || c = '\n' || c = '\r')

/-- Value of one hex digit, for \uXXXX escapes. -/
def hexVal (c : Char) : Option Nat :=
  if isAsciiDigit c then some (c.toNat - 48)
  else if 'a' ≤ c && c ≤ 'f' then some (c.toNat - 87)
  else if 'A' ≤ c && c ≤ 'F' then some (c.toNat - 55)
  else none

/-- Body of a JSON string after the opening quote: returns the decoded
characters and the input after the closing quote.  Fuel-indexed. -/
def parseStrChars : Nat → List Char → Option (List Char × List Char)
  | 0, _ => none
  | _ + 1, [] => none
  | n + 1, c :: r =>
    if c = '"' then some ([], r)
    else if c = '\\' then
      match r with
      | [] => none
      | e :: r2 =>
        if e = '"' then (parseStrChars n r2).map (fun p => ('"' :: p.1, p.2))
        else if e = '\\' then (parseStrChars n r2).map (fun p => ('\\' :: p.1, p.2))
        else if e = '/' then (parseStrChars n r2).map (fun p => ('/' :: p.1, p.2))
        else if e = 'b' then (parseStrChars n r2).map (fun p => ('\x08' :: p.1, p.2))
        else if e = 'f' then (parseStrChars n r2).map (fun p => ('\x0c' :: p.1, p.2))
        else if e = 'n' then (parseStrChars n r2).map (fun p => ('\n' :: p.1, p.2))
        else if e = 'r' then (parseStrChars n r2).map (fun p => ('\r' :: p.1, p.2))
        else if e = 't' then (parseStrChars n r2).map (fun p => ('\t' :: p.1, p.2))
        else if e = 'u' then
          match r2 with
          | h1 :: h2 :: h3 :: h4 :: r3 =>
            match hexVal h1, hexVal h2, hexVal h3, hexVal h4 with
            | some a, some b, some c2, some d =>
              (parseStrChars n r3).map
                (fun p => (Char.ofNat (((a * 16 + b) * 16 + c2) * 16 + d) :: p.1, p.2))
            | _, _, _, _ => none
          | _ => none
        else none
    else if c.toNat < 32 then none
    else (parseStrChars n r).map (fun p => (c :: p.1, p.2))

/-- Decimal digits to a natural number. -/
def digitsToNat (ds : List Char) : Nat :=
  ds.foldl (fun acc c => acc * 10 + (c.toNat - 48)) 0

/-- Optional exponent part [eE][+-]?digits of a JSON number; if absent or
malformed nothing is consumed. -/
def parseExpPart (rest : List Char) : Int × List Char :=
  match rest with
  | e :: r =>
    if e = 'e' || e = 'E' then
      let (esign, r1) : Int × List Char :=
        match r with
        | '+' :: r2 => (1, r2)
        | '-' :: r2 => (-1, r2)
        | _ => (1, r)
      let ds := r1.takeWhile isAsciiDigit
      if ds.isEmpty then (0, rest)
      else (esign * Int.ofNat (digitsToNat ds), r1.dropWhile isAsciiDigit)
    else (0, rest)
  | [] => (0, rest)

/-- Rest of a JSON number after the integer digits: optional fraction and
exponent.  A dot not followed by a digit is not part of the number. -/
def numAfterInt (neg : Bool) (intDs rest : List Char) : Option (JVal × List Char) :=
  let (fracDs, rest2) : List Char × List Char :=
    match rest with
    | '.' :: r =>
      let f := r.takeWhile isAsciiDigit
      if f.isEmpty then ([], rest) else (f, r.dropWhile isAsciiDigit)
    | _ => ([], rest)
  let (expVal, rest3) := parseExpPart rest2
  let mant : Int := Int.ofNat (digitsToNat (intDs ++ fracDs))
  some (JVal.num (if neg then -mant else mant) (expVal - Int.ofNat fracDs.length), rest3)

/-- A JSON number token: -?(0|[1-9][0-9]*)(.digits)?([eE][+-]?digits)?. -/
def parseNumberTok (s : List Char) : Option (JVal × List Char) :=
  let (neg, s1) : Bool × List Char :=
    match s with
    | '-' :: r => (true, r)
    | _ => (false, s)
  match s1 with
  | [] => none
  | '0' :: r1 => numAfterInt neg ['0'] r1
  | c :: r1 =>
    if isAsciiDigit c then
      numAfterInt neg (c :: r1.takeWhile isAsciiDigit) (r1.dropWhile isAsciiDigit)
    else none

/-- Parsing modes: a value, array items (first / after an item), object
members (first / after a member). -/
inductive PMode where
  | val | arrFirst | arrRest | objFirst | objRest

/-- Recursive-descent JSON parser, fuel-indexed; implements the grammar
`JSON.parse` accepts and returns the remaining input. -/
def parseF : Nat → PMode → List Char → Option (JVal × List Char)
  | 0, _, _ => none
  | n + 1, PMode.val, s =>
    match skipJsonWs s with
    | [] => none
    | '\x7b' :: r => parseF n PMode.objFirst r
    | '[' :: r => parseF n PMode.arrFirst r
    | '"' :: r =>
      match parseStrChars (n + 1) r with
      | some (cs, r1) => some (JVal.str cs, r1)
      | none => none
    | 't' :: 'r' :: 'u' :: 'e' :: r => some (JVal.bool true, r)
    | 'f' :: 'a' :: 'l' :: 's' :: 'e' :: r => some (JVal.bool false, r)
    | 'n' :: 'u' :: 'l' :: 'l' :: r => some (JVal.null, r)
    | c :: r =>
      if c = '-' || isAsciiDigit c then parseNumberTok (c :: r) else none
  | n + 1, PMode.arrFirst, s =>
    match skipJsonWs s with
    | ']' :: r => some (JVal.arr [], r)
    | s1 =>
      match parseF n PMode.val s1 with
      | some (v, r1) =>
        match parseF n PMode.arrRest r1 with
        | some (JVal.arr more, r2) => some (JVal.arr (v :: more), r2)
        | _ => none
      | none => none
  | n + 1, PMode.arrRest, s =>
    match skipJsonWs s with
    | ']' :: r => some (JVal.arr [], r)
    | ',' :: r =>
      match parseF n PMode.val r with
      | some (v, r1) =>
        match parseF n PMode.arrRest r1 with
        | some (JVal.arr more, r2) => some (JVal.arr (v :: more), r2)
        | _ => none
      | none => none
    | _ => none
  | n + 1, PMode.objFirst, s =>
    match skipJsonWs s with
    | '\x7d' :: r => some (JVal.obj [], r)
    | '"' :: r =>
      match parseStrChars (n + 1) r with
      | some (k, r1) =>
        match skipJsonWs r1 with
        | ':' :: r2 =>
          match parseF n PMode.val r2 with
          | some (v, r3) =>
            match parseF n PMode.objRest r3 with
            | some (JVal.obj more, r4) => some (JVal.obj ((k, v) :: more), r4)
            | _ => none
          | none => none
        | _ => none
      | none => none
    | _ => none
  | n + 1, PMode.objRest, s =>
    match skipJsonWs s with
    | '\x7d' :: r => some (JVal.obj [], r)
    | ',' :: r =>
      match skipJsonWs r with
      | '"' :: r1 =>
        match parseStrChars (n + 1) r1 with
        | some (k, r2) =>
          match skipJsonWs r2 with
          | ':' :: r3 =>
            match parseF n PMode.val r3 with
            | some (v, r4) =>
              match parseF n PMode.objRest r4 with
              | some (JVal.obj more, r5) => some (JVal.obj ((k, v) :: more), r5)
              | _ => none
            | none => none
          | _ => none
        | none => none
      | _ => none
    | _ => none

/-- `JSON.parse` model: a single JSON value with only whitespace around it;
any trailing content is a parse failure. -/
def jsonParse (s : List Char) : Option JVal :=
  match parseF (2 * s.length + 2) PMode.val s with
  | some (v, rest) => if (skipJsonWs rest).isEmpty then some v else none
  | none => none

/-- The prefix of `l` up to and including the LAST occurrence of `c`
(meaningful when `c ∈ l`). -/
def upToLast (c : Char) (l : List Char) : List Char :=
  (l.reverse.dropWhile (fun x => x ≠ c)).reverse

/-- The substring matched by the JS regex /(\{[\s\S]*\}|\[[\s\S]*\])/ :
leftmost position holding `{` (with a later `}`) or `[` (with a later `]`);
the greedy body extends the match to the last such closer in the text. -/
def regexJsonSpan : List Char → Option (List Char)
  | [] => none
  | c :: r =>
    if c = '\x7b' && r.contains '\x7d' then some (c :: upToLast '\x7d' r)
    else if c = '[' && r.contains ']' then some (c :: upToLast ']' r)
    else regexJsonSpan r

/-- `extractJSON` from api/index.js (and backend/server.js): try a direct
JSON.parse; on failure match the salvage regex and parse the matched span;
on any remaining failure return null. -/
def extractJSON (s : List Char) : Option JVal :=
  match jsonParse s with
  | some v => some v
  | none =>
    match regexJsonSpan s with
    | some m => jsonParse m
    | none => none

/-- Span from an opening bracket to its matching closer at nesting depth 0,
counting only the given bracket pair (used by the spec-worded variant). -/
def matchingSpan (opn cls : Char) : List Char → Nat → Option (List Char)
  | [], _ => none
  | c :: r, depth =>
    if c = cls then
      if depth = 0 then some [c]
      else (matchingSpan opn cls r (depth - 1)).map (fun m => c :: m)
    else if c = opn then
      (matchingSpan opn cls r (depth + 1)).map (fun m => c :: m)
    else
      (matchingSpan opn cls r depth).map (fun m => c :: m)

/-- First top-level bracketed span of the text: from the first `{` or `[`
to its matching closer. -/
def firstBracketSpan : List Char → Option (List Char)
  | [] => none
  | c :: r =>
    if c = '\x7b' then
      match matchingSpan '\x7b' '\x7d' r 0 with
      | some m => some (c :: m)
      | none => firstBracketSpan r
    else if c = '[' then
      match matchingSpan '[' ']' r 0 with
      | some m => some (c :: m)
      | none => firstBracketSpan r
    else firstBracketSpan r

/-- Spec-worded salvage: direct parse, else parse the FIRST TOP-LEVEL
`{...}`/`[...]` span (claim C1's description), else null.  Kept separate from
`extractJSON` (the code), to be compared against it. -/
def extractJSON_topLevel (s : List Char) : Option JVal :=
  match jsonParse s with
  | some v => some v
  | none =>
    match firstBracketSpan s with
    | some m => jsonParse m
    | none => none

/-! ## Resume field extractors (api/index.js lines 37-55) -/

/-- Character class of the email local part: [a-zA-Z0-9._%+-]. -/
def isLocalChar (c : Char) : Bool :=
  isAsciiLetter c || isAsciiDigit c || c = '.' || c = '_' || c = '%' || c = '+' || c = '-'

/-- Character class of the email domain part: [a-zA-Z0-9.-]. -/
def isDomainChar (c : Char) : Bool :=
  isAsciiLetter c || isAsciiDigit c || c = '.' || c = '-'

/-- Rightmost split `R = d ++ '.' :: rest` (empty `d` allowed) such that the
lower-case run at the start of `rest` has length ≥ 2; returns the part before
the dot and that run.  Mirrors the backtracking of [a-zA-Z0-9.-]+\.[a-z]{2,}
which gives back characters from the greediest domain first. -/
def splitDomainDot : List Char → Option (List Char × List Char)
  | [] => none
  | c :: r =>
    match splitDomainDot r with
    | some (d, t) => some (c :: d, t)
    | none =>
      if c = '.' then
        if 2 ≤ (r.takeWhile isLowerAZ).length then some ([], r.takeWhile isLowerAZ)
        else none
      else none

/-- Attempt of the email regex at the current position: a nonempty local-part
run, a literal '@', then the greedy domain run split at the last usable dot.
Requires the domain part before the dot to be nonempty. -/
def matchEmailAt (s : List Char) : Option (List Char) :=
  let l := s.takeWhile isLocalChar
  if l.isEmpty then none
  else
    match s.drop l.length with
    | c :: r2 =>
      if c = '@' then
        match r2.takeWhile isDomainChar with
        | [] => none
        | c2 :: Rr =>
          match splitDomainDot Rr with
          | some (d, t) => some (l ++ '@' :: ((c2 :: d) ++ '.' :: t))
          | none => none
      else none
    | [] => none

/-- `extractEmail`: first match of
/[a-zA-Z0-9._%+-]+@[a-zA-Z0-9.-]+\.[a-z]\x7b2,\x7d/ in the text, else null. -/
def extractEmail : List Char → Option (List Char)
  | [] => none
  | c :: r =>
    match matchEmailAt (c :: r) with
    | some m => some m
    | none => extractEmail r

/-- A well-formed email in the sense of the spec: nonempty local part over
its character class, '@', nonempty domain over its class, a dot, and a TLD of
at least two lower-case letters. -/
def wellFormedEmail (e : List Char) : Prop :=
  ∃ l d t, e = l ++ '@' :: (d ++ '.' :: t) ∧
    l ≠ [] ∧ l.all isLocalChar ∧ d ≠ [] ∧ d.all isDomainChar ∧
    2 ≤ t.length ∧ t.all isLowerAZ

/-! ## Phone extractor -/

/-- The separator class [\s-] of the phone regex. -/
def isSepChar (c : Char) : Bool :=
  isJsWs c || c = '-'

/-- Second group of the phone regex: ten digits, or else the grouped
3-3-4 digit form with single separators. -/
def tryGrouped (s : List Char) : Option (List Char) :=
  match s with
  | a :: b :: c :: s1 :: d :: e :: f :: s2 :: g :: h :: i :: j :: _ =>
    if isAsciiDigit a && isAsciiDigit b && isAsciiDigit c && isSepChar s1 &&
       isAsciiDigit d && isAsciiDigit e && isAsciiDigit f && isSepChar s2 &&
       isAsciiDigit g && isAsciiDigit h && isAsciiDigit i && isAsciiDigit j
    then some [a, b, c, s1, d, e, f, s2, g, h, i, j]
    else none
  | _ => none

/-- (\d\x7b10\x7d|\d\x7b3\x7d[\s-]\d\x7b3\x7d[\s-]\d\x7b4\x7d) at the
current position. -/
def tryG2 (s : List Char) : Option (List Char) :=
  if 10 ≤ s.length && (s.take 10).all isAsciiDigit then some (s.take 10)
  else tryGrouped s

/-- After the prefix digits: the optional single separator, tried
greedily (with it first, then without). -/
def sepOpts (pfx ds rest : List Char) : List (List Char × List Char) :=
  match rest with
  | c :: r2 =>
    if isSepChar c then [(pfx ++ ds ++ [c], r2), (pfx ++ ds, rest)]
    else [(pfx ++ ds, rest)]
  | [] => [(pfx ++ ds, [])]

/-- \d\x7b1,3\x7d[\s-]? after an optional '+': the 3-, 2- and 1-digit
prefixes in greedy order, each with its separator options. -/
def digitOpts (pfx r : List Char) : List (List Char × List Char) :=
  (if 3 ≤ r.length && (r.take 3).all isAsciiDigit then
     sepOpts pfx (r.take 3) (r.drop 3) else []) ++
  (if 2 ≤ r.length && (r.take 2).all isAsciiDigit then
     sepOpts pfx (r.take 2) (r.drop 2) else []) ++
  (if 1 ≤ r.length && (r.take 1).all isAsciiDigit then
     sepOpts pfx (r.take 1) (r.drop 1) else [])

/-- All ways the optional group (\+?\d\x7b1,3\x7d[\s-]?)? can consume input
at the current position, in the regex engine's backtracking order (the
'+'-consuming options first). -/
def g1Options (s : List Char) : List (List Char × List Char) :=
  (match s with
   | '+' :: r => digitOpts ['+'] r
   | _ => []) ++ digitOpts [] s

/-- First prefix option whose continuation matches the second group. -/
def firstG1 : List (List Char × List Char) → Option (List Char)
  | [] => none
  | (con, rest) :: more =>
    match tryG2 rest with
    | some m => some (con ++ m)
    | none => firstG1 more

/-- The phone regex tried at one position: every prefixed variant in
backtracking order, then the bare second group. -/
def matchPhoneAt (s : List Char) : Option (List Char) :=
  match firstG1 (g1Options s) with
  | some m => some m
  | none => tryG2 s

/-- `extractPhone`: first match of
/(\+?\d\x7b1,3\x7d[\s-]?)?(\d\x7b10\x7d|\d\x7b3\x7d[\s-]\d\x7b3\x7d[\s-]\d\x7b4\x7d)/,
else null. -/
def extractPhone : List Char → Option (List Char)
  | [] => none
  | c :: r =>
    match matchPhoneAt (c :: r) with
    | some m => some m
    | none => extractPhone r

/-- Ten consecutive digits. -/
def tenDigitShape (g : List Char) : Bool :=
  g.length = 10 && g.all isAsciiDigit

/-- The grouped ddd-sep-ddd-sep-dddd shape (exactly 12 characters). -/
def groupedShape (g : List Char) : Bool :=
  match g with
  | [a, b, c, s1, d, e, f, s2, g1, h, i, j] =>
    isAsciiDigit a && isAsciiDigit b && isAsciiDigit c && isSepChar s1 &&
    isAsciiDigit d && isAsciiDigit e && isAsciiDigit f && isSepChar s2 &&
    isAsciiDigit g1 && isAsciiDigit h && isAsciiDigit i && isAsciiDigit j
  | _ => false

/-! ## Name extractor -/

/-- Split the text into lines at \r?\n (a lone \r does not separate). -/
def splitLines : List Char → List (List Char)
  | [] => [[]]
  | '\r' :: '\n' :: r => [] :: splitLines r
  | '\n' :: r => [] :: splitLines r
  | c :: r =>
    match splitLines r with
    | f :: fs => (c :: f) :: fs
    | [] => [[c]]

/-- JS s.split(" "): fields between single spaces; consecutive spaces
produce empty fields. -/
def splitOnSpace : List Char → List (List Char)
  | [] => [[]]
  | c :: r =>
    if c = ' ' then [] :: splitOnSpace r
    else
      match splitOnSpace r with
      | f :: fs => (c :: f) :: fs
      | [] => [[c]]

/-- The per-line test of extractName: no "resume" (case-insensitive),
at least one letter, and at most 4 fields when split on single spaces. -/
def nameLineOk (s : List Char) : Bool :=
  !containsSub "resume".toList (s.map Char.toLower) &&
  s.any isAsciiLetter &&
  (splitOnSpace s).length ≤ 4

/-- The source's indexed loop over at most the first `n` lines. -/
def scanNameLines : Nat → List (List Char) → Option (List Char)
  | 0, _ => none
  | _ + 1, [] => none
  | n + 1, s :: rest => if nameLineOk s then some s else scanNameLines n rest

/-- `extractName`: split into lines, trim, drop blanks, scan the first six
lines for one passing `nameLineOk`. -/
def extractName (text : List Char) : Option (List Char) :=
  scanNameLines 6 (((splitLines text).map jsTrim).filter (fun l => !l.isEmpty))

/-- Number of whitespace-separated tokens (maximal non-whitespace runs);
`prevWs` records whether the previous character was whitespace/start. -/
def wsTokenCount : List Char → Bool → Nat
  | [], _ => 0
  | c :: r, prevWs =>
    if isJsWs c then wsTokenCount r true
    else (if prevWs then 1 else 0) + wsTokenCount r false

/-- The claim's per-line test, with "at most 4 whitespace-separated tokens"
in place of the code's split-on-single-space field count. -/
def nameLineOk_wsTokens (s : List Char) : Bool :=
  !containsSub "resume".toList (s.map Char.toLower) &&
  s.any isAsciiLetter &&
  wsTokenCount s true ≤ 4

/-- extractName as claim C5 words it: first of the first six non-blank
trimmed lines passing `nameLineOk_wsTokens`. -/
def extractName_wsTokens (text : List Char) : Option (List Char) :=
  ((((splitLines text).map jsTrim).filter (fun l => !l.isEmpty)).take 6).find? nameLineOk_wsTokens

/-! ## Session / timer controller (frontend/src/pages/Interviewee.js)

One active candidate is modelled.  Timestamps are `Nat` milliseconds
(Date.now()), countdown values are `Int` seconds.  Network results
(grading, final summary, fetched questions) enter as explicit parameters of
the operations; `timerRunning` models whether the interval is installed. -/

inductive Difficulty where
  | easy | medium | hard
deriving DecidableEq

/-- difficultySeconds = \x7b easy: 20, medium: 60, hard: 120 \x7d. -/
def difficultySeconds : Difficulty → Nat
  | Difficulty.easy => 20
  | Difficulty.medium => 60
  | Difficulty.hard => 120

structure Question where
  id : List Char
  difficulty : Difficulty
  text : List Char
deriving DecidableEq

/-- An answer record as built in handleSubmit. -/
structure AnswerRec where
  questionId : List Char
  questionText : List Char
  difficulty : Difficulty
  responseText : List Char
  timeTakenSeconds : Int
  autoSubmitted : Bool
  score : Option Int
  feedback : Option (List Char)
deriving DecidableEq

/-- The persisted timer object \x7bquestionIndex, remaining, lastUpdated\x7d;
spreads of a missing timer can leave questionIndex/remaining absent. -/
structure TimerRec where
  questionIndex : Option Nat
  remaining : Option Int
  lastUpdated : Nat
deriving DecidableEq

/-- A candidate record (storage fields not used by the modelled operations,
such as resume text, are omitted). -/
structure Candidate where
  name : List Char
  email : List Char
  phone : List Char
  currentIndex : Nat
  answers : List AnswerRec
  finalScore : Option Int
  summary : Option (List Char)
  timer : Option TimerRec
  paused : Bool
  questionsLength : Nat
  questions : List Question
deriving DecidableEq

/-- The component state around the active candidate: `questions`,
`currentIndex`, `remaining` and `answer` useState values plus whether the
countdown interval is installed. -/
structure UIState where
  cand : Candidate
  questions : List Question
  currentIndex : Nat
  remaining : Int
  answer : List Char
  timerRunning : Bool
deriving DecidableEq

/-- The sentinel response for auto-submitted answers. -/
def sentinelResponse : List Char := "[AUTO SUBMITTED]".toList

/-- handleUploadFile's new candidate (lines 220-236). -/
def uploadCandidate (name email phone : List Char) : Candidate :=
  { name := name, email := email, phone := phone, currentIndex := 0,
    answers := [], finalScore := none, summary := none, timer := none,
    paused := false, questionsLength := 0, questions := [] }

/-- openCandidate's resumed index:
`resume ? (cand.currentIndex || cand.answers.length || 0) : 0`
(JS `||` falls through on 0). -/
def openIdx (cand : Candidate) (resume : Bool) : Nat :=
  if resume then
    (if cand.currentIndex ≠ 0 then cand.currentIndex else cand.answers.length)
  else 0

/-- openCandidate (lines 136-182): fetch questions when the record has none
(the caller rejects any fetched list that is not exactly 6 long), compute the
resumed index, reconstruct the remaining time from the stored timer when its
questionIndex matches and its remaining is a number, and persist a fresh
timer with `paused := false`.  `ans` is the untouched answer-box state;
`fetched` stands for the /api/generate-questions response. -/
def openCandidate (cand : Candidate) (fetched : List Question) (resume : Bool)
    (now : Nat) (ans : List Char) : Option UIState :=
  let needFetch := cand.questions.isEmpty
  if needFetch && fetched.length ≠ 6 then none
  else
    let qs := if needFetch then fetched else cand.questions
    let cand1 := if needFetch then
      { cand with questions := qs, questionsLength := qs.length } else cand
    let idx := openIdx cand resume
    let rem0 : Int :=
      match qs.get? idx with
      | some q => (difficultySeconds q.difficulty : Int)
      | none => 0
    let rem : Int :=
      match cand.timer with
      | some t =>
        match t.questionIndex, t.remaining with
        | some qi, some r =>
          if qi = idx then max 0 (r - (((now - t.lastUpdated) / 1000 : Nat) : Int))
          else rem0
        | _, _ => rem0
      | none => rem0
    some
      { cand := { cand1 with
          timer := some { questionIndex := some idx, remaining := some rem,
                          lastUpdated := now },
          paused := false },
        questions := qs,
        currentIndex := min idx (qs.length - 1),
        remaining := rem,
        answer := ans,
        timerRunning := false }

/-- startTimer (lines 78-102) up to installing the interval: clears any
interval, bails without a current question, seeds `remaining` from the stored
timer (?? difficulty budget) and installs the interval. -/
def startTimer (s : UIState) : UIState :=
  match s.questions.get? s.currentIndex with
  | none => { s with timerRunning := false }
  | some q =>
    let initR : Int :=
      match s.cand.timer with
      | some t =>
        match t.remaining with
        | some r => r
        | none => (difficultySeconds q.difficulty : Int)
      | none => (difficultySeconds q.difficulty : Int)
    { s with remaining := initR, timerRunning := true }

/-- The timer effect (lines 104-110): with questions present and the
candidate not paused, (re)start the countdown. -/
def effectTimer (s : UIState) : UIState :=
  if s.questions.length ≠ 0 && !s.cand.paused then startTimer s else s

/-- pauseActive (lines 113-122): clear the interval, set paused, persist the
current remaining with a fresh lastUpdated (spreading the old timer). -/
def pauseActive (now : Nat) (s : UIState) : UIState :=
  { s with
    timerRunning := false,
    cand := { s.cand with
      paused := true,
      timer := some
        { questionIndex :=
            match s.cand.timer with
            | some t => t.questionIndex
            | none => none,
          remaining := some s.remaining,
          lastUpdated := now } } }

/-- resumeActive (lines 124-133): clear paused, refresh lastUpdated keeping
the stored remaining, and call startTimer. -/
def resumeActive (now : Nat) (s : UIState) : UIState :=
  startTimer
    { s with
      cand := { s.cand with
        paused := false,
        timer := some
          { questionIndex :=
              match s.cand.timer with
              | some t => t.questionIndex
              | none => none,
            remaining :=
              match s.cand.timer with
              | some t => t.remaining
              | none => none,
            lastUpdated := now } } }

/-- handleSubmit (lines 290-370).  `auto` is the auto-submit flag; `grade`
is the /api/grade-answer outcome (`none` = failure, swallowed); `finalResp`
the /api/final-summary outcome, used only after the last question.  The
interval is cleared first; without a current question nothing else happens.
The response text falls back to the sentinel only for a blank auto submit;
timeTaken is the difficulty budget minus the remaining seconds. -/
def handleSubmit (auto : Bool) (grade : Option (Int × List Char))
    (finalResp : Option (Int × List Char)) (now : Nat) (s : UIState) : UIState :=
  let s0 := { s with timerRunning := false }
  match s.questions.get? s.currentIndex with
  | none => s0
  | some q =>
    let responseText :=
      if (jsTrim s.answer).isEmpty && auto then sentinelResponse else s.answer
    let timeTaken : Int := (difficultySeconds q.difficulty : Int) - s.remaining
    let newAnswer : AnswerRec :=
      { questionId := q.id, questionText := q.text, difficulty := q.difficulty,
        responseText := responseText, timeTakenSeconds := timeTaken,
        autoSubmitted := auto, score := none, feedback := none }
    let cand1 := { s.cand with
      answers := s.cand.answers ++ [newAnswer],
      currentIndex := s.cand.currentIndex + 1,
      timer := none }
    let cand2 :=
      match grade with
      | some (sc, fb) =>
        { cand1 with answers :=
            cand1.answers.dropLast ++
              (match cand1.answers.getLast? with
               | some a => [{ a with score := some sc, feedback := some fb }]
               | none => []) }
      | none => cand1
    let s1 := { s0 with cand := cand2, answer := [] }
    let nextIndex := s.currentIndex + 1
    if nextIndex < s.questions.length then
      let rem' : Int :=
        match s.questions.get? nextIndex with
        | some nq => (difficultySeconds nq.difficulty : Int)
        | none => 0
      { s1 with
        currentIndex := nextIndex,
        remaining := rem',
        cand := { s1.cand with
          timer := some { questionIndex := some nextIndex, remaining := some rem',
                          lastUpdated := now },
          paused := false } }
    else
      match finalResp with
      | some (fs, sm) =>
        { s1 with cand := { s1.cand with
            finalScore := some fs, summary := some sm,
            currentIndex := s.questions.length } }
      | none => s1

/-- One interval tick (lines 87-101): decrement, persist max(0, next) with a
fresh timestamp; on reaching 0 clear the interval and auto-submit.  The
auto-submit is invoked inside the setRemaining updater, so handleSubmit's
closure still reads the PRE-TICK `remaining` (1 at a natural expiry) when it
computes timeTakenSeconds; the updater's own `return 0` is only applied
after handleSubmit's synchronous prefix and is overwritten by the advance
branch's setRemaining, so the pre-tick value is carried through here. -/
def tick (grade finalResp : Option (Int × List Char)) (now : Nat)
    (s : UIState) : UIState :=
  if s.timerRunning then
    let next := s.remaining - 1
    let candT := { s.cand with
      timer := some { questionIndex := some s.currentIndex,
                      remaining := some (max 0 next), lastUpdated := now } }
    if next ≤ 0 then
      handleSubmit true grade finalResp now
        { s with cand := candT, timerRunning := false }
    else { s with cand := candT, remaining := next }
  else s

/-- Typing in the answer box. -/
def typeAnswer (txt : List Char) (s : UIState) : UIState :=
  { s with answer := txt }

/-- A manual submission: the submit button is enabled only for a non-blank
answer, remaining time, and a non-paused candidate (line 509). -/
def manualSubmit (grade finalResp : Option (Int × List Char)) (now : Nat)
    (s : UIState) : UIState :=
  if !(jsTrim s.answer).isEmpty && s.remaining > 0 && !s.cand.paused then
    handleSubmit false grade finalResp now s
  else s

/-! ## /api/grade-answer handler (api/index.js lines 112-131) -/

/-- JS values that can arrive in the request body fields. -/
inductive JsVal where
  | undef
  | jsNull
  | jsStr : List Char → JsVal
  | jsNum : Int → JsVal
  | jsBool : Bool → JsVal
deriving DecidableEq

/-- JS falsiness of a body field. -/
def jsFalsy : JsVal → Bool
  | JsVal.undef => true
  | JsVal.jsNull => true
  | JsVal.jsStr s => s.isEmpty
  | JsVal.jsNum n => n = 0
  | JsVal.jsBool b => !b

/-- JS falsiness of a parsed JSON value (the `if (!grading)` check). -/
def jvalFalsy : Option JVal → Bool
  | none => true
  | some JVal.null => true
  | some (JVal.bool b) => !b
  | some (JVal.num m _) => m = 0
  | some (JVal.str s) => s.isEmpty
  | some (JVal.arr _) => false
  | some (JVal.obj _) => false

/-- The grade-answer handler: validate `\x7b question, answer \x7d` with JS
truthiness before any model call; otherwise one `generateContent` call whose
reply (`none` = the call threw) is salvaged with extractJSON.  Returns the
HTTP status and the number of model calls made. -/
def gradeAnswerHandler (question answer : JsVal)
    (reply : Option (List Char)) : Nat × Nat :=
  if jsFalsy question || jsFalsy answer then (400, 0)
  else
    match reply with
    | none => (500, 1)
    | some text =>
      if jvalFalsy (extractJSON text) then (500, 1) else (200, 1)

/-- A phone-number segment the second regex group accepts. -/
def phoneShape (g : List Char) : Bool :=
  tenDigitShape g || groupedShape g

/-! ## Concrete demonstration data -/

/-- Six generated questions, 2 per difficulty, as the backend prompt
requests. -/
def demoQuestions : List Question :=
  [⟨"q1".toList, Difficulty.easy, "t1".toList⟩,
   ⟨"q2".toList, Difficulty.easy, "t2".toList⟩,
   ⟨"q3".toList, Difficulty.medium, "t3".toList⟩,
   ⟨"q4".toList, Difficulty.medium, "t4".toList⟩,
   ⟨"q5".toList, Difficulty.hard, "t5".toList⟩,
   ⟨"q6".toList, Difficulty.hard, "t6".toList⟩]

/-- A mid-interview candidate on question 2 with a stored timer. -/
def c2demoCand : Candidate :=
  { uploadCandidate "n".toList "e".toList "p".toList with
    questions := demoQuestions, questionsLength := 6, currentIndex := 2,
    answers := [],
    timer := some { questionIndex := some 2, remaining := some 50,
                    lastUpdated := 10000 } }

/-- An active session on the first (easy) question, one second left,
blank answer box, countdown running. -/
def c3demoState : UIState :=
  { cand := { uploadCandidate "n".toList "e".toList "p".toList with
      questions := demoQuestions, questionsLength := 6 },
    questions := demoQuestions, currentIndex := 0, remaining := 1,
    answer := [], timerRunning := true }

/-- The same session with a typed but unsubmitted draft answer. -/
def c3ceState : UIState :=
  { c3demoState with answer := "abc".toList }

/-- An active session used for the pause experiments. -/
def c9demoState : UIState :=
  { cand := { uploadCandidate "n".toList "e".toList "p".toList with
      questions := demoQuestions, questionsLength := 6,
      timer := some { questionIndex := some 0, remaining := some 15,
                      lastUpdated := 500 } },
    questions := demoQuestions, currentIndex := 0, remaining := 15,
    answer := [], timerRunning := true }

/-- Answer the current question manually: type a non-blank answer and
submit (grading fails and is swallowed; `fin` is the summary response). -/
def c4AnswerOne (fin : Option (Int × List Char)) (now : Nat) (s : UIState) : UIState :=
  manualSubmit none fin now (typeAnswer "an answer".toList s)

/-- Full run of an interview: upload, open with 6 fetched questions,
answer all six questions manually; the final summary succeeds with 80%. -/
def c4Completed : Option UIState :=
  (openCandidate (uploadCandidate "n".toList "e".toList "p".toList)
      demoQuestions false 1000 []).map (fun s =>
    c4AnswerOne (some (80, "ok".toList)) 1600 <|
    c4AnswerOne none 1500 <| c4AnswerOne none 1400 <|
    c4AnswerOne none 1300 <| c4AnswerOne none 1200 <|
    c4AnswerOne none 1100 s)

/-- Reopen the completed candidate from the session list
(handleOpenCandidate defaults to resume = true), run the timer effect and
let one interval tick elapse. -/
def c4Final : Option UIState :=
  ((c4Completed.bind (fun s => openCandidate s.cand [] true 2000 s.answer)).map
    effectTimer).map (tick none none 3000)

example : jsonParse "\x7b\"a\":1\x7d".toList = some (JVal.obj [(['a'], JVal.num 1 0)]) := by rfl
example : extractJSON "noise \x7b\"a\":1\x7d trailing".toList = some (JVal.obj [(['a'], JVal.num 1 0)]) := by rfl
example : extractJSON "not json at all".toList = none := by rfl
example : extractJSON "\x7b\"a\":1\x7d \x7b\"b\":2\x7d".toList = none := by rfl
example : extractJSON_topLevel "\x7b\"a\":1\x7d \x7b\"b\":2\x7d".toList = some (JVal.obj [(['a'], JVal.num 1 0)]) := by rfl

/-! ## Claim theorems -/

/-- C1 (amended): extractJSON first attempts a direct JSON parse and returns
the parsed value on success; on parse failure it regex-extracts the span
running from the first `\x7b` or `[` to the LAST `\x7d` / `]` in the text
(the greedy regex match) and parses that; if that also fails or no span
exists it returns null.  In particular the three quoted examples hold. -/
theorem c1_extractJSON_salvage :
    (∀ t v, jsonParse t = some v → extractJSON t = some v) ∧
    (∀ t m, jsonParse t = none → regexJsonSpan t = some m →
      extractJSON t = jsonParse m) ∧
    (∀ t, jsonParse t = none → regexJsonSpan t = none → extractJSON t = none) ∧
    extractJSON "\x7b\"a\":1\x7d".toList = some (JVal.obj [(['a'], JVal.num 1 0)]) ∧
    extractJSON "noise \x7b\"a\":1\x7d trailing".toList
      = some (JVal.obj [(['a'], JVal.num 1 0)]) ∧
    extractJSON "not json at all".toList = none := by
  refine ⟨?_, ?_, ?_, rfl, rfl, rfl⟩
  · intro t v h
    unfold extractJSON
    rw [h]
  · intro t m h1 h2
    unfold extractJSON
    rw [h1, h2]
  · intro t h1 h2
    unfold extractJSON
    rw [h1, h2]

/-- Witness for C1: the theorem applied at concrete inputs. -/
theorem c1_extractJSON_salvage_witness :
    extractJSON "7".toList = some (JVal.num 7 0) ∧
    extractJSON "x [1] y".toList = jsonParse "[1]".toList ∧
    extractJSON "plain".toList = none :=
  ⟨c1_extractJSON_salvage.1 "7".toList (JVal.num 7 0) rfl,
   c1_extractJSON_salvage.2.1 "x [1] y".toList "[1]".toList rfl rfl,
   c1_extractJSON_salvage.2.2.1 "plain".toList rfl rfl⟩

/-- Counterexample to C1 as stated: on a text holding two top-level objects
the greedy regex spans from the first `\x7b` to the last `\x7d`, the parse of
that span fails and extractJSON returns null, while parsing the FIRST
top-level span (the claim's description) succeeds. -/
theorem c1_extractJSON_counterexample :
    extractJSON "\x7b\"a\":1\x7d \x7b\"b\":2\x7d".toList = none ∧
    extractJSON_topLevel "\x7b\"a\":1\x7d \x7b\"b\":2\x7d".toList
      = some (JVal.obj [(['a'], JVal.num 1 0)]) :=
  ⟨rfl, rfl⟩

/-- C4 (code violates the invariant): a full 6-question interview is
completed (6 answers, finalScore set); reopening that candidate from the
session list restarts the countdown at the stored remaining 0 and the next
tick auto-submits a 7th answer, so answers.length = 7 > 6 = questions.length
and currentIndex no longer tracks an existing question. -/
theorem c4_invariant_violation :
    c4Completed.map (fun s =>
        (s.cand.answers.length, s.cand.finalScore, s.cand.currentIndex))
      = some (6, some 80, 6) ∧
    c4Final.map (fun s =>
        (s.cand.answers.length, s.cand.questions.length,
         s.cand.questionsLength, s.cand.currentIndex))
      = some (7, 6, 6, 7) ∧
    (c4Final.map (fun s => (s.cand.answers.map AnswerRec.responseText).getLast?))
      = some (some sentinelResponse) :=
  ⟨rfl, rfl, rfl⟩

/-- C8 (amended): a missing — or any other falsy, such as empty-string —
question or answer field yields status 400 with no model call; when both
fields are truthy exactly one model call is made, with no retry. -/
theorem c8_gradeAnswer_amended :
    (∀ q a reply, (jsFalsy q || jsFalsy a) = true →
      gradeAnswerHandler q a reply = (400, 0)) ∧
    (∀ q a reply, jsFalsy q = false → jsFalsy a = false →
      (gradeAnswerHandler q a reply).2 = 1) := by
  constructor
  · intro q a reply h
    unfold gradeAnswerHandler
    simp [h]
  · intro q a reply hq ha
    unfold gradeAnswerHandler
    simp only [hq, ha, Bool.or_self, Bool.false_eq_true, if_false]
    cases reply with
    | none => rfl
    | some text => by_cases h : jvalFalsy (extractJSON text) = true <;> simp [h]

/-- Witness for C8 (amended): concrete falsy and truthy requests. -/
theorem c8_gradeAnswer_amended_witness :
    gradeAnswerHandler JsVal.undef (JsVal.jsStr ['a']) none = (400, 0) ∧
    (gradeAnswerHandler (JsVal.jsStr ['q']) (JsVal.jsStr ['a'])
      (some "\x7b\"score\":5,\"feedback\":\"ok\"\x7d".toList)).2 = 1 :=
  ⟨c8_gradeAnswer_amended.1 JsVal.undef (JsVal.jsStr ['a']) none rfl,
   c8_gradeAnswer_amended.2 (JsVal.jsStr ['q']) (JsVal.jsStr ['a'])
     (some "\x7b\"score\":5,\"feedback\":\"ok\"\x7d".toList) rfl rfl⟩

/-- Counterexample to C8 as stated: with both fields PRESENT but the answer
the empty string, the handler returns 400 and makes zero model calls, not
the "exactly one model call per request" the claim asserts for present
fields. -/
theorem c8_gradeAnswer_counterexample :
    gradeAnswerHandler (JsVal.jsStr ['q']) (JsVal.jsStr []) (some ['x'])
      = (400, 0) ∧
    JsVal.jsStr [] ≠ JsVal.undef :=
  ⟨rfl, by decide⟩

/-- C10: a present-but-falsy answer field (empty string, 0, false, null) is
handled exactly like a missing one: 400 before any model call. -/
theorem c10_gradeAnswer_falsyAnswer :
    ∀ (q a : JsVal) (reply : Option (List Char)), jsFalsy a = true →
      gradeAnswerHandler q a reply = (400, 0) ∧
      gradeAnswerHandler q a reply = gradeAnswerHandler q JsVal.undef reply := by
  intro q a reply h
  have h1 : gradeAnswerHandler q a reply = (400, 0) := by
    unfold gradeAnswerHandler
    rw [h]
    simp
  have h2 : gradeAnswerHandler q JsVal.undef reply = (400, 0) := by
    unfold gradeAnswerHandler
    simp [jsFalsy]
  exact ⟨h1, h1.trans h2.symm⟩

/-- Witness for C10: empty string and the number 0 as the answer field. -/
theorem c10_gradeAnswer_falsyAnswer_witness :
    gradeAnswerHandler (JsVal.jsStr ['q']) (JsVal.jsStr []) (some ['x'])
      = (400, 0) ∧
    gradeAnswerHandler (JsVal.jsStr ['q']) (JsVal.jsNum 0) none = (400, 0) :=
  ⟨(c10_gradeAnswer_falsyAnswer (JsVal.jsStr ['q']) (JsVal.jsStr [])
      (some ['x']) rfl).1,
   (c10_gradeAnswer_falsyAnswer (JsVal.jsStr ['q']) (JsVal.jsNum 0) none rfl).1⟩

/-- C2: opening/resuming a not-paused candidate whose stored timer matches
the resumed question index and carries a numeric remaining reconstructs
remaining = max(0, storedRemaining - floor((now - lastUpdated)/1000)). -/
theorem c2_openCandidate_reconstruction
    (cand : Candidate) (fetched : List Question) (resume : Bool) (now : Nat)
    (ans : List Char) (t : TimerRec) (r : Int)
    (hq : cand.questions ≠ [])
    (hp : cand.paused = false)
    (ht : cand.timer = some t)
    (hqi : t.questionIndex = some (openIdx cand resume))
    (hr : t.remaining = some r)
    (hnow : t.lastUpdated ≤ now) :
    ∃ st, openCandidate cand fetched resume now ans = some st ∧
      st.remaining = max 0 (r - (((now - t.lastUpdated) / 1000 : Nat) : Int)) := by
  have hne : cand.questions.isEmpty = false := by
    cases hcq : cand.questions with
    | nil => exact absurd hcq hq
    | cons a l => rfl
  unfold openCandidate
  simp only [hne, ht, hqi, hr, Bool.false_and, Bool.false_eq_true, if_false,
    eq_self_iff_true, if_true]
  exact ⟨_, rfl, by simp⟩

/-- Witness for C2: a candidate resumed on question 2 with 50s stored,
3500ms after the last tick, reconstructs 47 seconds. -/
theorem c2_openCandidate_reconstruction_witness :
    ∃ st, openCandidate c2demoCand [] true 13500 [] = some st ∧
      st.remaining = max 0 (50 - (((13500 - 10000) / 1000 : Nat) : Int)) :=
  c2_openCandidate_reconstruction c2demoCand [] true 13500 []
    { questionIndex := some 2, remaining := some 50, lastUpdated := 10000 } 50
    (by decide) rfl rfl rfl rfl (by decide)

/-- C3 (amended): when the countdown expires with a BLANK draft answer and
no manual submit, `tick` auto-submits the current question with the sentinel
response and autoSubmitted = true, the controller advances to the next
question, and timeTakenSeconds is the difficulty budget minus the PRE-TICK
remaining read by the submit handler's closure — budget - 1 (19, not 20,
for an easy question) at a natural expiry, where the handler runs inside
the setRemaining updater while the displayed remaining is still 1. -/
theorem c3_autoSubmit_amended (s : UIState) (q : Question) (now : Nat)
    (finalResp : Option (Int × List Char))
    (hrun : s.timerRunning = true)
    (hq : s.questions.get? s.currentIndex = some q)
    (hrem : s.remaining = 1)
    (hblank : (jsTrim s.answer).isEmpty = true)
    (hnext : s.currentIndex + 1 < s.questions.length) :
    (tick none finalResp now s).cand.answers = s.cand.answers ++
      [{ questionId := q.id, questionText := q.text, difficulty := q.difficulty,
         responseText := sentinelResponse,
         timeTakenSeconds := (difficultySeconds q.difficulty : Int) - 1,
         autoSubmitted := true, score := none, feedback := none }] ∧
    (tick none finalResp now s).cand.currentIndex = s.cand.currentIndex + 1 ∧
    (tick none finalResp now s).currentIndex = s.currentIndex + 1 := by
  have hle : s.remaining - 1 ≤ 0 := by omega
  unfold tick
  rw [hrun]
  simp only [if_true, hle, if_pos]
  unfold handleSubmit
  simp only [hq, hblank, Bool.true_and, if_true, hnext, if_pos]
  simp [hrem]

/-- Witness for C3 (amended): natural expiry on the first easy question
appends the sentinel answer with timeTakenSeconds = 20 - 1 = 19 and
advances. -/
theorem c3_autoSubmit_amended_witness :
    (tick none none 777 c3demoState).cand.answers = c3demoState.cand.answers ++
      [{ questionId := "q1".toList, questionText := "t1".toList,
         difficulty := Difficulty.easy, responseText := sentinelResponse,
         timeTakenSeconds := (difficultySeconds Difficulty.easy : Int) - 1,
         autoSubmitted := true, score := none, feedback := none }] ∧
    (tick none none 777 c3demoState).cand.currentIndex
      = c3demoState.cand.currentIndex + 1 ∧
    (tick none none 777 c3demoState).currentIndex = c3demoState.currentIndex + 1 :=
  c3_autoSubmit_amended c3demoState
    ⟨"q1".toList, Difficulty.easy, "t1".toList⟩ 777 none rfl rfl rfl rfl
    (by decide)

/-- Counterexample to C3 as stated, on both asserted fields: a draft answer
typed but never submitted is recorded verbatim on expiry ("abc", not the
sentinel), and a natural expiry on an easy question with a blank draft
records timeTakenSeconds = 19, not the full 20-second budget, because the
submit handler's closure reads the pre-tick remaining of 1. -/
theorem c3_autoSubmit_counterexample :
    ((tick none none 777 c3ceState).cand.answers.map AnswerRec.responseText)
      = ["abc".toList] ∧
    ((tick none none 777 c3ceState).cand.answers.map AnswerRec.autoSubmitted)
      = [true] ∧
    "abc".toList ≠ sentinelResponse ∧
    ((tick none none 777 c3demoState).cand.answers.map AnswerRec.timeTakenSeconds)
      = [19] ∧
    (19 : Int) ≠ (difficultySeconds Difficulty.easy : Int) :=
  ⟨rfl, rfl, by decide, rfl, by decide⟩

/-- C9 (amended): pausing twice equals pausing once except that
timer.lastUpdated is refreshed to the second pause's timestamp; paused stays
true, the countdown stays stopped, the stored remaining is not decremented
again, and pausing twice at the same timestamp is exactly pausing once. -/
theorem c9_pause_amended (s : UIState) (now1 now2 : Nat) :
    pauseActive now2 (pauseActive now1 s)
      = { pauseActive now1 s with
          cand := { (pauseActive now1 s).cand with
            timer := ((pauseActive now1 s).cand.timer).map
              (fun t => { t with lastUpdated := now2 }) } } ∧
    (pauseActive now2 (pauseActive now1 s)).cand.paused = true ∧
    (pauseActive now2 (pauseActive now1 s)).timerRunning = false ∧
    (pauseActive now2 (pauseActive now1 s)).remaining
      = (pauseActive now1 s).remaining ∧
    ((pauseActive now2 (pauseActive now1 s)).cand.timer).map TimerRec.remaining
      = ((pauseActive now1 s).cand.timer).map TimerRec.remaining ∧
    (now2 = now1 → pauseActive now2 (pauseActive now1 s) = pauseActive now1 s) := by
  refine ⟨rfl, rfl, rfl, rfl, rfl, ?_⟩
  intro h
  subst h
  rfl

/-- Witness for C9 (amended): double pause at one timestamp collapses. -/
theorem c9_pause_amended_witness :
    pauseActive 1000 (pauseActive 1000 c9demoState) = pauseActive 1000 c9demoState :=
  (c9_pause_amended c9demoState 1000 1000).2.2.2.2.2 rfl

/-- Counterexample to C9 as stated: pausing twice at different times does NOT
yield the same candidate state — timer.lastUpdated moves to the second
pause's timestamp, which a later reload's reconstruction observes. -/
theorem c9_pause_counterexample :
    pauseActive 5000 (pauseActive 1000 c9demoState) ≠ pauseActive 1000 c9demoState := by
  decide

/-- splitOnSpace never returns the empty list. -/
theorem splitOnSpace_ne_nil (s : List Char) : splitOnSpace s ≠ [] := by
  cases s with
  | nil => simp [splitOnSpace]
  | cons c r =>
    unfold splitOnSpace
    by_cases h : c = ' '
    · simp [h]
    · simp only [h, if_false]
      cases splitOnSpace r <;> simp

/-- The number of split(" ") fields is the space count plus one. -/
theorem splitOnSpace_length (s : List Char) :
    (splitOnSpace s).length = s.count ' ' + 1 := by
  induction s with
  | nil => rfl
  | cons c r ih =>
    unfold splitOnSpace
    by_cases h : c = ' '
    · subst h
      simp [List.count_cons, ih] <;> omega
    · simp only [h, if_false]
      cases hsp : splitOnSpace r with
      | nil => exact absurd hsp (splitOnSpace_ne_nil r)
      | cons f fs =>
        rw [hsp] at ih
        simp [List.count_cons, h] at ih ⊢
        omega

/-- The source's scan over at most n lines is find? over the first n lines. -/
theorem scanNameLines_eq (n : Nat) (ls : List (List Char)) :
    scanNameLines n ls = (ls.take n).find? nameLineOk := by
  induction n generalizing ls with
  | zero => simp [scanNameLines]
  | succ n ih =>
    cases ls with
    | nil => simp [scanNameLines]
    | cons s rest =>
      rw [List.take_succ_cons]
      by_cases h : nameLineOk s
      · simp [scanNameLines, h]
      · simp [scanNameLines, h, ih]

/-- C5 (amended): extractName returns the first of the first six non-blank
trimmed lines that has no case-insensitive "resume", contains a letter, and
has at most 3 space characters — i.e. at most 4 fields when split on single
spaces, consecutive spaces counting as extra (empty) fields; else null. -/
theorem c5_extractName_amended (text : List Char) :
    extractName text =
      ((((splitLines text).map jsTrim).filter (fun l => !l.isEmpty)).take 6).find?
        (fun s => !containsSub "resume".toList (s.map Char.toLower) &&
                  s.any isAsciiLetter && decide (s.count ' ' ≤ 3)) := by
  unfold extractName
  rw [scanNameLines_eq]
  have hpt : ∀ s : List Char, nameLineOk s =
      (!containsSub "resume".toList (s.map Char.toLower) &&
       s.any isAsciiLetter && decide (s.count ' ' ≤ 3)) := by
    intro s
    unfold nameLineOk
    have hd : decide ((splitOnSpace s).length ≤ 4) = decide (s.count ' ' ≤ 3) := by
      rw [decide_eq_decide, splitOnSpace_length]
      omega
    rw [hd]
  rw [funext hpt]

/-- Counterexample to C5 as stated: "John  Alpha  Beta" (double spaces) has
3 whitespace-separated tokens, a letter and no "resume", so the claim says
it is returned; the code's split(" ") counts 5 fields (two empty) and
rejects it, returning null. -/
theorem c5_extractName_counterexample :
    extractName "John  Alpha  Beta".toList = none ∧
    nameLineOk_wsTokens "John  Alpha  Beta".toList = true ∧
    extractName_wsTokens "John  Alpha  Beta".toList
      = some "John  Alpha  Beta".toList :=
  ⟨rfl, rfl, rfl⟩

/-! ### List helpers for the regex matchers -/

/-- takeWhile walks through a prefix all of whose elements satisfy p. -/
theorem takeWhile_append_all {p : Char → Bool} (l r : List Char)
    (h : ∀ c ∈ l, p c = true) :
    (l ++ r).takeWhile p = l ++ r.takeWhile p := by
  induction l with
  | nil => rfl
  | cons a l ih =>
    rw [List.cons_append, List.takeWhile_cons, h a (List.mem_cons_self a l),
      if_pos rfl, ih fun c hc => h c (List.mem_cons_of_mem a hc)]
    rfl

/-- takeWhile of a list all of whose elements satisfy p is the list. -/
theorem takeWhile_all_eq {p : Char → Bool} (l : List Char)
    (h : ∀ c ∈ l, p c = true) : l.takeWhile p = l := by
  have := takeWhile_append_all l [] h
  simpa using this

/-- Dropping the length of the takeWhile reaches the dropWhile. -/
theorem drop_takeWhile_length {p : Char → Bool} (s : List Char) :
    s.drop (s.takeWhile p).length = s.dropWhile p := by
  induction s with
  | nil => rfl
  | cons a l ih =>
    by_cases hp : p a = true <;>
      simp [List.takeWhile_cons, List.dropWhile_cons, hp, ih]

/-- A list splits as its takeWhile followed by the rest. -/
theorem takeWhile_append_drop {p : Char → Bool} (s : List Char) :
    s = s.takeWhile p ++ s.drop (s.takeWhile p).length := by
  rw [drop_takeWhile_length]
  exact (List.takeWhile_append_dropWhile p s).symm

/-! ### splitDomainDot -/

/-- Soundness of splitDomainDot: a successful split exposes the dot and the
greedy lower-case TLD run of length at least 2. -/
theorem splitDomainDot_sound (R d t : List Char)
    (h : splitDomainDot R = some (d, t)) :
    ∃ rest, R = d ++ '.' :: rest ∧ t = rest.takeWhile isLowerAZ ∧
      2 ≤ t.length := by
  induction R generalizing d t with
  | nil => simp [splitDomainDot] at h
  | cons c r ih =>
    unfold splitDomainDot at h
    split at h
    · next d' t' heq =>
        simp only [Option.some.injEq, Prod.mk.injEq] at h
        obtain ⟨hd, ht⟩ := h
        subst hd
        subst ht
        obtain ⟨rest, hR, htw, hlen⟩ := ih d' t' heq
        exact ⟨rest, by simp [hR], htw, hlen⟩
    · next heq =>
        split at h
        · next hc =>
            split at h
            · next hl =>
                simp only [Option.some.injEq, Prod.mk.injEq] at h
                obtain ⟨hd, ht⟩ := h
                subst hd
                subst ht
                exact ⟨r, by simp [hc], rfl, hl⟩
            · cases h
        · cases h

/-- Completeness of splitDomainDot: any dot followed by a lower-case run of
length at least 2 makes it succeed. -/
theorem splitDomainDot_complete (u v : List Char)
    (h : 2 ≤ (v.takeWhile isLowerAZ).length) :
    (splitDomainDot (u ++ '.' :: v)).isSome = true := by
  induction u with
  | nil =>
    rw [List.nil_append]
    unfold splitDomainDot
    cases hsp : splitDomainDot v with
    | some p => simp
    | none => simp [h]
  | cons c u ih =>
    rw [List.cons_append]
    unfold splitDomainDot
    cases hsp : splitDomainDot (u ++ '.' :: v) with
    | some p => simp
    | none =>
      first
      | (rw [hsp] at ih; simp at ih)
      | simp at ih

/-- On a domain ending with the separating dot and an all-lower-case TLD,
splitDomainDot picks exactly that dot. -/
theorem splitDomainDot_exact (d t : List Char) (ht : t.all isLowerAZ = true)
    (hlen : 2 ≤ t.length) :
    splitDomainDot (d ++ '.' :: t) = some (d, t) := by
  have hnod : splitDomainDot t = none := by
    clear hlen
    induction t with
    | nil => rfl
    | cons c r ih =>
      simp only [List.all_cons, Bool.and_eq_true] at ht
      unfold splitDomainDot
      rw [ih ht.2]
      have hc : ¬ (c = '.') := by
        intro hc
        subst hc
        exact absurd ht.1 (by decide)
      simp [hc]
  induction d with
  | nil =>
    rw [List.nil_append]
    unfold splitDomainDot
    rw [hnod]
    have htw : t.takeWhile isLowerAZ = t :=
      takeWhile_all_eq t (List.all_eq_true.mp ht)
    simp [htw, hlen]
  | cons c d ih =>
    rw [List.cons_append]
    unfold splitDomainDot
    rw [ih]

/-! ### matchEmailAt and extractEmail -/

/-- Lower-case letters are domain characters. -/
theorem lowerAZ_isDomainChar (c : Char) (h : isLowerAZ c = true) :
    isDomainChar c = true := by
  unfold isDomainChar isAsciiLetter
  unfold isLowerAZ at h
  rw [h]
  rfl

/-- Unfolding equation for matchEmailAt. -/
theorem matchEmailAt_eq (s : List Char) :
    matchEmailAt s =
      (if (s.takeWhile isLocalChar).isEmpty then none
       else
        match s.drop (s.takeWhile isLocalChar).length with
        | c :: r2 =>
          if c = '@' then
            match r2.takeWhile isDomainChar with
            | [] => none
            | c2 :: Rr =>
              match splitDomainDot Rr with
              | some (d, t) =>
                some (s.takeWhile isLocalChar ++ '@' :: ((c2 :: d) ++ '.' :: t))
              | none => none
          else none
        | [] => none) := rfl

/-- Soundness of matchEmailAt: a match is a well-formed email and a prefix
of the input. -/
theorem matchEmailAt_sound (s m : List Char) (h : matchEmailAt s = some m) :
    wellFormedEmail m ∧ ∃ v, s = m ++ v := by
  rw [matchEmailAt_eq] at h
  split at h
  · exact Option.noConfusion h
  next hle =>
    split at h
    next c r2 hdrop =>
      split at h
      next hc =>
        subst hc
        split at h
        next hR => exact Option.noConfusion h
        next c2 Rr hR =>
          split at h
          next d t hsp =>
            simp only [Option.some.injEq] at h
            obtain ⟨rest, hRr, htw, hlen⟩ := splitDomainDot_sound Rr d t hsp
            have hlocal : ∀ x ∈ s.takeWhile isLocalChar, isLocalChar x = true :=
              fun x hx => List.mem_takeWhile_imp hx
            have hdom : ∀ x ∈ c2 :: d, isDomainChar x = true := by
              intro x hx
              apply List.mem_takeWhile_imp (p := isDomainChar) (l := r2)
              rw [hR, hRr]
              rcases List.mem_cons.mp hx with h1 | h1
              · subst h1
                exact List.mem_cons_self _ _
              · exact List.mem_cons_of_mem _ (by simp [h1])
            have htld : ∀ x ∈ t, isLowerAZ x = true := by
              intro x hx
              rw [htw] at hx
              exact List.mem_takeWhile_imp hx
            constructor
            · refine ⟨s.takeWhile isLocalChar, c2 :: d, t, h.symm, ?_, ?_, ?_, ?_, hlen, ?_⟩
              · intro hnil
                rw [hnil] at hle
                exact hle rfl
              · exact List.all_eq_true.mpr hlocal
              · simp
              · exact List.all_eq_true.mpr hdom
              · exact List.all_eq_true.mpr htld
            · -- s = m ++ v
              have hs1 : s = s.takeWhile isLocalChar ++ '@' :: r2 := by
                conv_lhs => rw [takeWhile_append_drop (p := isLocalChar) s]
                rw [hdrop]
              obtain ⟨w, hw⟩ : ∃ w, r2 = (c2 :: Rr) ++ w := by
                refine ⟨r2.drop (r2.takeWhile isDomainChar).length, ?_⟩
                conv_lhs => rw [takeWhile_append_drop (p := isDomainChar) r2]
                rw [hR]
              obtain ⟨u, hu⟩ : ∃ u, rest = t ++ u := by
                refine ⟨rest.drop (rest.takeWhile isLowerAZ).length, ?_⟩
                conv_lhs => rw [takeWhile_append_drop (p := isLowerAZ) rest]
                rw [← htw]
              subst hRr
              subst hu
              subst hw
              refine ⟨u ++ w, ?_⟩
              rw [← h]
              conv_lhs => rw [hs1]
              simp
          next hsp => exact Option.noConfusion h
      next hc => exact Option.noConfusion h
    next hdrop => exact Option.noConfusion h

/-- Soundness of extractEmail: a result is a well-formed email occurring in
the text. -/
theorem extractEmail_sound (s m : List Char) (h : extractEmail s = some m) :
    wellFormedEmail m ∧ ∃ u v, s = u ++ m ++ v := by
  induction s with
  | nil => simp [extractEmail] at h
  | cons c r ih =>
    unfold extractEmail at h
    cases hm : matchEmailAt (c :: r) with
    | some m' =>
      rw [hm] at h
      simp only [Option.some.injEq] at h
      subst h
      obtain ⟨hwf, v, hs⟩ := matchEmailAt_sound _ _ hm
      exact ⟨hwf, [], v, by simpa using hs⟩
    | none =>
      rw [hm] at h
      obtain ⟨hwf, u, v, hs⟩ := ih h
      exact ⟨hwf, c :: u, v, by simp [hs]⟩

/-- Completeness of matchEmailAt at the start of a well-formed email. -/
theorem matchEmailAt_complete (l d t post : List Char)
    (hl : l ≠ []) (hla : l.all isLocalChar = true)
    (hd : d ≠ []) (hda : d.all isDomainChar = true)
    (hlen : 2 ≤ t.length) (hta : t.all isLowerAZ = true) :
    (matchEmailAt (l ++ '@' :: (d ++ '.' :: (t ++ post)))).isSome = true := by
  have hlmem := List.all_eq_true.mp hla
  have hdmem := List.all_eq_true.mp hda
  have htmem := List.all_eq_true.mp hta
  have htw1 : (l ++ '@' :: (d ++ '.' :: (t ++ post))).takeWhile isLocalChar = l := by
    rw [takeWhile_append_all l _ hlmem]
    rw [List.takeWhile_cons]
    simp [show isLocalChar '@' = false from rfl]
  have hdrop : (l ++ '@' :: (d ++ '.' :: (t ++ post))).drop l.length
      = '@' :: (d ++ '.' :: (t ++ post)) := List.drop_left _ _
  have hR : (d ++ '.' :: (t ++ post)).takeWhile isDomainChar
      = d ++ '.' :: (t ++ post.takeWhile isDomainChar) := by
    rw [takeWhile_append_all d _ hdmem]
    rw [List.takeWhile_cons]
    simp only [show isDomainChar '.' = true from rfl, if_true]
    rw [takeWhile_append_all t _ (fun c hc => lowerAZ_isDomainChar c (htmem c hc))]
  obtain ⟨c2, d', rfl⟩ : ∃ c2 d', d = c2 :: d' := by
    cases d with
    | nil => exact absurd rfl hd
    | cons a b => exact ⟨a, b, rfl⟩
  have hlne : l.isEmpty = false := by
    cases l with
    | nil => exact absurd rfl hl
    | cons a l' => rfl
  unfold matchEmailAt
  simp only [htw1, hlne, Bool.false_eq_true, if_false]
  rw [hdrop]
  simp only [if_pos rfl]
  rw [hR, List.cons_append]
  have hext : 2 ≤ ((t ++ post.takeWhile isDomainChar).takeWhile isLowerAZ).length := by
    rw [takeWhile_append_all t _ htmem]
    simp only [List.length_append]
    omega
  have hsome := splitDomainDot_complete d'
    (t ++ post.takeWhile isDomainChar) hext
  show (match splitDomainDot (d' ++ '.' :: (t ++ post.takeWhile isDomainChar)) with
    | some (d, t) => some (l ++ '@' :: (c2 :: d ++ '.' :: t))
    | none => none).isSome = true
  cases hdd : splitDomainDot (d' ++ '.' :: (t ++ post.takeWhile isDomainChar)) with
  | none =>
    rw [hdd] at hsome
    simp at hsome
  | some p =>
    obtain ⟨d2, t2⟩ := p
    rfl

/-- On exactly a well-formed email the matcher returns the whole input. -/
theorem matchEmailAt_exact (l d t : List Char)
    (hl : l ≠ []) (hla : l.all isLocalChar = true)
    (hd : d ≠ []) (hda : d.all isDomainChar = true)
    (hlen : 2 ≤ t.length) (hta : t.all isLowerAZ = true) :
    matchEmailAt (l ++ '@' :: (d ++ '.' :: t)) = some (l ++ '@' :: (d ++ '.' :: t)) := by
  obtain ⟨c2, d', rfl⟩ : ∃ c2 d', d = c2 :: d' := by
    cases d with
    | nil => exact absurd rfl hd
    | cons a b => exact ⟨a, b, rfl⟩
  have hlmem := List.all_eq_true.mp hla
  have hdmem := List.all_eq_true.mp hda
  have htmem := List.all_eq_true.mp hta
  have htw1 : (l ++ '@' :: (c2 :: d' ++ '.' :: t)).takeWhile isLocalChar = l := by
    rw [takeWhile_append_all l _ hlmem, List.takeWhile_cons]
    simp [show isLocalChar '@' = false from rfl]
  have hlne : l.isEmpty = false := by
    cases l with
    | nil => exact absurd rfl hl
    | cons a l' => rfl
  have hdrop : (l ++ '@' :: (c2 :: d' ++ '.' :: t)).drop l.length
      = '@' :: (c2 :: d' ++ '.' :: t) := List.drop_left _ _
  have hR : (c2 :: d' ++ '.' :: t).takeWhile isDomainChar
      = c2 :: d' ++ '.' :: t := by
    rw [takeWhile_append_all (c2 :: d') _ hdmem, List.takeWhile_cons]
    simp only [show isDomainChar '.' = true from rfl, if_true]
    rw [takeWhile_all_eq t (fun c hc => lowerAZ_isDomainChar c (htmem c hc))]
  have hsp : splitDomainDot (d' ++ '.' :: t) = some (d', t) :=
    splitDomainDot_exact d' t hta hlen
  unfold matchEmailAt
  simp only [htw1, hlne, Bool.false_eq_true, if_false]
  rw [hdrop]
  simp only [if_pos rfl]
  rw [hR, List.cons_append]
  show (match splitDomainDot (d' ++ '.' :: t) with
    | some (d, t) => some (l ++ '@' :: (c2 :: d ++ '.' :: t))
    | none => none) = some (l ++ '@' :: (c2 :: d' ++ '.' :: t))
  rw [hsp]

/-- extractEmail applied to exactly a well-formed email returns it whole. -/
theorem extractEmail_exact (e : List Char) (h : wellFormedEmail e) :
    extractEmail e = some e := by
  obtain ⟨l, d, t, rfl, hl, hla, hd, hda, hlen, hta⟩ := h
  have hm := matchEmailAt_exact l d t hl hla hd hda hlen hta
  cases l with
  | nil => exact absurd rfl hl
  | cons c0 l' =>
    rw [List.cons_append] at hm ⊢
    unfold extractEmail
    rw [hm]

/-- extractEmail finds an email contained anywhere in the text. -/
theorem extractEmail_complete (pre e post : List Char) (hwf : wellFormedEmail e) :
    (extractEmail (pre ++ e ++ post)).isSome = true := by
  induction pre with
  | nil =>
    obtain ⟨l, d, t, rfl, hl, hla, hd, hda, hlen, hta⟩ := hwf
    have hassoc : ([] ++ (l ++ '@' :: (d ++ '.' :: t)) ++ post)
        = l ++ '@' :: (d ++ '.' :: (t ++ post)) := by simp
    rw [hassoc]
    have hm := matchEmailAt_complete l d t post hl hla hd hda hlen hta
    cases l with
    | nil => exact absurd rfl hl
    | cons c0 l' =>
      rw [List.cons_append] at hm ⊢
      unfold extractEmail
      cases hmm : matchEmailAt (c0 :: (l' ++ '@' :: (d ++ '.' :: (t ++ post)))) with
      | some m => rfl
      | none =>
        first
        | (rw [hmm] at hm; simp at hm)
        | simp at hm
  | cons c pre ih =>
    rw [show ((c :: pre) ++ e ++ post) = c :: (pre ++ e ++ post) by simp]
    unfold extractEmail
    cases hmm : matchEmailAt (c :: (pre ++ e ++ post)) with
    | some m => rfl
    | none => exact ih

/-- C6: extractEmail returns some well-formed address exactly when the text
contains a well-formed email (first regex match); on a text that IS a
well-formed address it returns exactly that address; with no email-like
substring it returns null. -/
theorem c6_extractEmail_correct :
    (∀ e, wellFormedEmail e → extractEmail e = some e) ∧
    (∀ pre e post, wellFormedEmail e →
      ∃ m, extractEmail (pre ++ e ++ post) = some m ∧ wellFormedEmail m) ∧
    (∀ s, (∀ u m v, s = u ++ m ++ v → ¬ wellFormedEmail m) →
      extractEmail s = none) := by
  refine ⟨extractEmail_exact, ?_, ?_⟩
  · intro pre e post hwf
    have h := extractEmail_complete pre e post hwf
    cases hx : extractEmail (pre ++ e ++ post) with
    | none =>
      first
      | (rw [hx] at h; simp at h)
      | simp at h
    | some m =>
      obtain ⟨hwm, u, v, hs⟩ := extractEmail_sound _ _ hx
      exact ⟨m, rfl, hwm⟩
  · intro s hno
    cases hx : extractEmail s with
    | none => rfl
    | some m =>
      obtain ⟨hwm, u, v, hs⟩ := extractEmail_sound _ _ hx
      exact absurd hwm (hno u m v hs)

/-- Witness for C6: a lone address, a surrounded address, and a text with
no email at all. -/
theorem c6_extractEmail_correct_witness :
    extractEmail "a@b.co".toList = some "a@b.co".toList ∧
    (∃ m, extractEmail ("x ".toList ++ "a@b.co".toList ++ " y".toList) = some m ∧
      wellFormedEmail m) ∧
    extractEmail "hello".toList = none := by
  have hwf : wellFormedEmail "a@b.co".toList :=
    ⟨['a'], ['b'], ['c', 'o'], by decide, by decide, by decide, by decide,
     by decide, by decide, by decide⟩
  refine ⟨c6_extractEmail_correct.1 _ hwf,
    c6_extractEmail_correct.2.1 "x ".toList _ " y".toList hwf,
    c6_extractEmail_correct.2.2 "hello".toList ?_⟩
  intro u m v heq hwm
  obtain ⟨l, d, t, hm, hl, hrest⟩ := hwm
  have hat : '@' ∈ m := by rw [hm]; simp
  have hs : '@' ∈ "hello".toList := by
    rw [heq]
    simp [hat]
  exact absurd hs (by decide)

/-! ### extractPhone -/

/-- Separator characters are not digits. -/
theorem sep_not_digit (c : Char) (h : isSepChar c = true) :
    isAsciiDigit c = false := by
  unfold isSepChar isJsWs at h
  simp only [Bool.or_eq_true, decide_eq_true_eq] at h
  rcases h with ((((((h | h) | h) | h) | h) | h) | h) <;> subst h <;> decide

/-- tryGrouped matches are grouped-shaped prefixes. -/
theorem tryGrouped_sound (s m : List Char) (h : tryGrouped s = some m) :
    ∃ v, s = m ++ v ∧ phoneShape m = true := by
  unfold tryGrouped at h
  split at h
  next a b c s1 d e f s2 g1 h1 i1 j1 rest =>
    split at h
    next hcond =>
      simp only [Option.some.injEq] at h
      subst h
      exact ⟨rest, rfl, by simp [phoneShape, groupedShape, hcond]⟩
    next hcond => exact Option.noConfusion h
  next => exact Option.noConfusion h

/-- tryG2 matches are ten-digit or grouped prefixes. -/
theorem tryG2_sound (s m : List Char) (h : tryG2 s = some m) :
    ∃ v, s = m ++ v ∧ phoneShape m = true := by
  unfold tryG2 at h
  split at h
  next hc =>
    simp only [Option.some.injEq] at h
    subst h
    simp only [Bool.and_eq_true, decide_eq_true_eq] at hc
    refine ⟨s.drop 10, (List.take_append_drop 10 s).symm, ?_⟩
    unfold phoneShape tenDigitShape
    simp [List.length_take, hc.1, hc.2]
  next hc => exact tryGrouped_sound s m h

/-- Every successful option of firstG1 comes from a listed prefix option
whose remainder matches the second group. -/
theorem firstG1_sound (opts : List (List Char × List Char)) (m : List Char)
    (h : firstG1 opts = some m) :
    ∃ con rest m2, (con, rest) ∈ opts ∧ tryG2 rest = some m2 ∧ m = con ++ m2 := by
  induction opts with
  | nil => simp [firstG1] at h
  | cons p more ih =>
    obtain ⟨con, rest⟩ := p
    unfold firstG1 at h
    split at h
    next m2 heq =>
      simp only [Option.some.injEq] at h
      exact ⟨con, rest, m2, by simp, heq, h.symm⟩
    next heq =>
      obtain ⟨c2, r2, m2, hmem, ht, hm⟩ := ih h
      exact ⟨c2, r2, m2, by simp [hmem], ht, hm⟩

/-- The separator options all concatenate back to the input. -/
theorem sepOpts_mem (pfx ds rest0 con r : List Char)
    (h : (con, r) ∈ sepOpts pfx ds rest0) : pfx ++ ds ++ rest0 = con ++ r := by
  unfold sepOpts at h
  cases rest0 with
  | nil =>
    simp only [List.mem_singleton, Prod.mk.injEq] at h
    obtain ⟨h1, h2⟩ := h
    subst h1
    subst h2
    simp
  | cons c r2 =>
    by_cases hc : isSepChar c = true
    · simp only [hc, if_true, List.mem_cons, List.mem_singleton, Prod.mk.injEq,
        List.not_mem_nil, or_false] at h
      rcases h with ⟨h1, h2⟩ | ⟨h1, h2⟩ <;> subst h1 <;> subst h2 <;> simp
    · simp only [hc, if_false, Bool.false_eq_true, List.mem_singleton,
        Prod.mk.injEq] at h
      obtain ⟨h1, h2⟩ := h
      subst h1
      subst h2
      simp

/-- The digit-prefix options all concatenate back to the input. -/
theorem digitOpts_mem (pfx r con rest : List Char)
    (h : (con, rest) ∈ digitOpts pfx r) : pfx ++ r = con ++ rest := by
  unfold digitOpts at h
  simp only [List.mem_append] at h
  have step : ∀ k : Nat, (con, rest) ∈ sepOpts pfx (r.take k) (r.drop k) →
      pfx ++ r = con ++ rest := by
    intro k hk
    have := sepOpts_mem pfx (r.take k) (r.drop k) con rest hk
    rwa [List.append_assoc, List.take_append_drop] at this
  rcases h with (h | h) | h
  · split at h
    · exact step 3 h
    · simp at h
  · split at h
    · exact step 2 h
    · simp at h
  · split at h
    · exact step 1 h
    · simp at h

/-- Every listed prefix option splits the scanned suffix. -/
theorem g1Options_mem (s con rest : List Char)
    (h : (con, rest) ∈ g1Options s) : s = con ++ rest := by
  unfold g1Options at h
  rw [List.mem_append] at h
  rcases h with h | h
  · split at h
    next r =>
      have := digitOpts_mem ['+'] r con rest h
      simpa using this
    next => simp at h
  · have := digitOpts_mem [] s con rest h
    simpa using this

/-- Soundness of matchPhoneAt: success exposes a ten-digit or grouped
segment of the input. -/
theorem matchPhoneAt_sound (s m : List Char) (h : matchPhoneAt s = some m) :
    ∃ u g v, s = u ++ g ++ v ∧ phoneShape g = true := by
  unfold matchPhoneAt at h
  split at h
  next m' heq =>
    simp only [Option.some.injEq] at h
    subst h
    obtain ⟨con, rest, m2, hmem, ht2, hm⟩ := firstG1_sound _ _ heq
    obtain ⟨v, hrest, hshape⟩ := tryG2_sound _ _ ht2
    have hs := g1Options_mem s con rest hmem
    refine ⟨con, m2, v, ?_, hshape⟩
    rw [hs, hrest]
    simp
  next heq =>
    obtain ⟨v, hrest, hshape⟩ := tryG2_sound _ _ h
    exact ⟨[], m, v, by simpa using hrest, hshape⟩

/-- Soundness of extractPhone. -/
theorem extractPhone_sound (s m : List Char) (h : extractPhone s = some m) :
    ∃ u g v, s = u ++ g ++ v ∧ phoneShape g = true := by
  induction s with
  | nil => simp [extractPhone] at h
  | cons c r ih =>
    unfold extractPhone at h
    split at h
    next m' heq =>
      simp only [Option.some.injEq] at h
      subst h
      exact matchPhoneAt_sound _ _ heq
    next heq =>
      obtain ⟨u, g, v, hs, hshape⟩ := ih h
      exact ⟨c :: u, g, v, by simp [hs], hshape⟩

/-- A grouped-shaped segment is exactly 12 characters of the 3-sep-3-sep-4
digit pattern. -/
theorem groupedShape_parts (w : List Char) (h : groupedShape w = true) :
    ∃ a b c s1 d e f s2 g1 h1 i1 j1,
      w = [a, b, c, s1, d, e, f, s2, g1, h1, i1, j1] ∧
      isAsciiDigit a = true ∧ isAsciiDigit b = true ∧ isAsciiDigit c = true ∧
      isSepChar s1 = true ∧ isAsciiDigit d = true ∧ isAsciiDigit e = true ∧
      isAsciiDigit f = true ∧ isSepChar s2 = true ∧ isAsciiDigit g1 = true ∧
      isAsciiDigit h1 = true ∧ isAsciiDigit i1 = true ∧
      isAsciiDigit j1 = true := by
  rcases w with _|⟨a,_|⟨b,_|⟨c,_|⟨s1,_|⟨d,_|⟨e,_|⟨f,_|⟨s2,_|⟨g1,_|⟨h1,_|⟨i1,_|⟨j1,rest⟩⟩⟩⟩⟩⟩⟩⟩⟩⟩⟩⟩
  · exact absurd h (by simp [groupedShape])
  · exact absurd h (by simp [groupedShape])
  · exact absurd h (by simp [groupedShape])
  · exact absurd h (by simp [groupedShape])
  · exact absurd h (by simp [groupedShape])
  · exact absurd h (by simp [groupedShape])
  · exact absurd h (by simp [groupedShape])
  · exact absurd h (by simp [groupedShape])
  · exact absurd h (by simp [groupedShape])
  · exact absurd h (by simp [groupedShape])
  · exact absurd h (by simp [groupedShape])
  · exact absurd h (by simp [groupedShape])
  · cases rest with
    | cons x rest' => exact absurd h (by simp [groupedShape])
    | nil =>
      simp only [groupedShape, Bool.and_eq_true, and_assoc] at h
      obtain ⟨h1, h2, h3, h4, h5, h6, h7, h8, h9, h10, h11, h12⟩ := h
      exact ⟨_, _, _, _, _, _, _, _, _, _, _, _, rfl,
        h1, h2, h3, h4, h5, h6, h7, h8, h9, h10, h11, h12⟩

/-- Completeness of tryG2 at the start of a phone-shaped segment. -/
theorem tryG2_complete (g v : List Char) (h : phoneShape g = true) :
    (tryG2 (g ++ v)).isSome = true := by
  unfold phoneShape at h
  rw [Bool.or_eq_true] at h
  rcases h with h | h
  · unfold tenDigitShape at h
    simp only [Bool.and_eq_true, decide_eq_true_eq] at h
    obtain ⟨hlen, hall⟩ := h
    unfold tryG2
    have h10 : (g ++ v).take 10 = g := by
      rw [← hlen]
      exact List.take_left _ _
    have hcond : (10 ≤ (g ++ v).length && ((g ++ v).take 10).all isAsciiDigit)
        = true := by
      simp only [h10, hall, Bool.and_true, List.length_append,
        decide_eq_true_eq]
      omega
    rw [hcond]
    simp
  · obtain ⟨a, b, c, s1, d, e, f, s2, g1, h1, i1, j1, rfl,
      ha, hb, hc, hs1, hd, he, hf, hs2, hg1, hh1, hi1, hj1⟩ :=
      groupedShape_parts g h
    have hs1d : isAsciiDigit s1 = false := sep_not_digit _ hs1
    unfold tryG2
    have hcond : (10 ≤ ([a, b, c, s1, d, e, f, s2, g1, h1, i1, j1] ++ v).length &&
        (([a, b, c, s1, d, e, f, s2, g1, h1, i1, j1] ++ v).take 10).all isAsciiDigit)
        = false := by
      simp [List.take_succ_cons, List.all_cons, hs1d]
    rw [hcond]
    simp only [Bool.false_eq_true, if_false]
    show (tryGrouped (a :: b :: c :: s1 :: d :: e :: f :: s2 :: g1 :: h1 ::
      i1 :: j1 :: v)).isSome = true
    unfold tryGrouped
    simp [ha, hb, hc, hs1, hd, he, hf, hs2, hg1, hh1, hi1, hj1]

/-- Completeness of matchPhoneAt at the start of a phone-shaped segment. -/
theorem matchPhoneAt_complete (g v : List Char) (h : phoneShape g = true) :
    (matchPhoneAt (g ++ v)).isSome = true := by
  unfold matchPhoneAt
  cases hf : firstG1 (g1Options (g ++ v)) with
  | some m => rfl
  | none => exact tryG2_complete g v h

/-- A phone-shaped segment is nonempty. -/
theorem phoneShape_ne_nil (g : List Char) (h : phoneShape g = true) :
    g ≠ [] := by
  intro hg
  subst hg
  simp [phoneShape, tenDigitShape, groupedShape] at h

/-- A phone-shaped segment has 10 or 12 characters. -/
theorem phoneShape_length (g : List Char) (h : phoneShape g = true) :
    g.length = 10 ∨ g.length = 12 := by
  unfold phoneShape at h
  rw [Bool.or_eq_true] at h
  rcases h with h | h
  · left
    unfold tenDigitShape at h
    simp only [Bool.and_eq_true, decide_eq_true_eq] at h
    exact h.1
  · right
    obtain ⟨a, b, c, s1, d, e, f, s2, g1, h1, i1, j1, rfl, hrest⟩ :=
      groupedShape_parts g h
    rfl

/-- Completeness of extractPhone. -/
theorem extractPhone_complete (u g v : List Char) (h : phoneShape g = true) :
    (extractPhone (u ++ g ++ v)).isSome = true := by
  induction u with
  | nil =>
    simp only [List.nil_append]
    have hm := matchPhoneAt_complete g v h
    obtain ⟨c0, g', rfl⟩ : ∃ c0 g', g = c0 :: g' := by
      cases g with
      | nil => exact absurd rfl (phoneShape_ne_nil _ h)
      | cons a b => exact ⟨a, b, rfl⟩
    rw [List.cons_append] at hm ⊢
    unfold extractPhone
    cases hmm : matchPhoneAt (c0 :: (g' ++ v)) with
    | some m => rfl
    | none =>
      first
      | (rw [hmm] at hm; simp at hm)
      | simp at hm
  | cons c u ih =>
    rw [show ((c :: u) ++ g ++ v) = c :: (u ++ g ++ v) by simp]
    unfold extractPhone
    cases hmm : matchPhoneAt (c :: (u ++ g ++ v)) with
    | some m => rfl
    | none => exact ih

/-- C7: extractPhone returns a match whenever the text contains ten
consecutive digits or a grouped ddd-sep-ddd-sep-dddd segment, and returns
null when no such segment exists (in particular when every digit run is
shorter than 10 and nothing is in the grouped form). -/
theorem c7_extractPhone_correct :
    (∀ u g v, phoneShape g = true →
      (extractPhone (u ++ g ++ v)).isSome = true) ∧
    (∀ s, (∀ u g v, s = u ++ g ++ v → phoneShape g = false) →
      extractPhone s = none) := by
  refine ⟨fun u g v h => extractPhone_complete u g v h, ?_⟩
  intro s hno
  cases hx : extractPhone s with
  | none => rfl
  | some m =>
    obtain ⟨u, g, v, hs, hshape⟩ := extractPhone_sound _ _ hx
    have hfalse := hno u g v hs
    rw [hshape] at hfalse
    exact Bool.noConfusion hfalse

/-- Witness for C7: a ten-digit number embedded in text is found; "12345"
(all digit runs shorter than 10, no grouped form) yields null. -/
theorem c7_extractPhone_correct_witness :
    (extractPhone ("tel: ".toList ++ "1234567890".toList ++ [])).isSome = true ∧
    extractPhone "12345".toList = none := by
  constructor
  · exact c7_extractPhone_correct.1 "tel: ".toList "1234567890".toList []
      (by decide)
  · apply c7_extractPhone_correct.2
    intro u g v heq
    cases hps : phoneShape g with
    | false => rfl
    | true =>
      have hlen := phoneShape_length g hps
      have hlen5 : ("12345".toList).length = (u ++ g ++ v).length := by rw [heq]
      simp only [List.length_append] at hlen5
      have : ("12345".toList).length = 5 := by decide
      omega
